import Mathlib

/-!
Shallow embedding of `src/android/app/src/main/cpp/native-lib.cpp`:
the JNI bridge `Java_com_landseek_amphibian_service_AmphibianNative_startNode`,
which marshals a Java string array into a C-style `argc`/`argv` pair and
forwards it to the embedded runtime entry point `node::Start`, logging one
line before the call and one line after it.

Modelling conventions:
* a Java string is the list of bytes its UTF chars conversion yields
  (`GetStringUTFChars` output), each byte a `Nat`;
* a C `for (int i = 0; i < bound; i++)` loop is `cFor` / `cForM`, recursing
  on an `Int` counter exactly as the source does;
* JNI calls that can fail (`GetObjectArrayElement`, `GetStringUTFChars`)
  return `Option`; `none` propagating to the bridge result marks the
  undefined behaviour of the unchecked source;
* `node::Start` is an abstract `NodeRuntime` whose `Start` field consumes
  the argument count and the dereferenced argument buffers;
* observable behaviour (JNI reads, buffer allocation and release, log
  lines, the runtime invocation) is recorded in an event trace.
-/

namespace Amphibian

/-- A byte of a native string buffer. -/
abbrev JByte := Nat

/-- A Java string, as the byte sequence its UTF chars conversion yields. -/
abbrev JavaString := List JByte

/-- The buffer returned by `std::string::c_str()`: the string's bytes
followed by the NUL terminator. -/
def cstrBuffer (s : List JByte) : List JByte := s ++ [0]

/-- A `std::string` constructed from a raw C string pointer: it copies the
bytes up to (excluding) the first NUL byte. -/
def stdString (raw : List JByte) : List JByte := raw.takeWhile (fun b => b ≠ 0)

/-- Read a C++ vector (or Java array) at a C `int` index: defined exactly
when the index is in bounds. -/
def vecGet (v : List α) (i : Int) : Option α :=
  if h : 0 ≤ i ∧ i.toNat < v.length then some (v.get ⟨i.toNat, h.2⟩) else none

/-- JNI `GetArrayLength`: the length of the Java array, as a C `int`. -/
def GetArrayLength (arr : List JavaString) : Int := arr.length

/-- JNI `GetObjectArrayElement`: in-bounds read of the Java array. -/
def GetObjectArrayElement (arr : List JavaString) (i : Int) : Option JavaString :=
  vecGet arr i

/-- The C loop `for (int i = 0; i < bound; i++) acc.push_back(f i)`,
started at counter value `i`. -/
def cFor (bound : Int) (f : Int → α) (i : Int) : List α :=
  if i < bound then f i :: cFor bound f (i + 1) else []
termination_by (bound - i).toNat
decreasing_by simp_wf; omega

/-- The same C loop when the body can fail: the first failing iteration
aborts the loop with `none` (modelling undefined behaviour propagating). -/
def cForM (bound : Int) (f : Int → Option α) (i : Int) : Option (List α) :=
  if i < bound then
    match f i with
    | none => none
    | some x =>
      match cForM bound f (i + 1) with
      | none => none
      | some xs => some (x :: xs)
  else some []
termination_by (bound - i).toNat
decreasing_by simp_wf; omega

theorem cFor_eq_map (bound : Int) (f : Int → α) (i : Int) :
    cFor bound f i = (List.range (bound - i).toNat).map (fun j : Nat => f (i + (j : Int))) := by
  generalize hn : (bound - i).toNat = n
  induction n generalizing i with
  | zero =>
    rw [cFor]
    have : ¬ i < bound := by omega
    simp [this]
  | succ n ih =>
    rw [cFor]
    have hi : i < bound := by omega
    have hn1 : (bound - (i + 1)).toNat = n := by omega
    rw [if_pos hi, ih (i + 1) hn1, List.range_succ_eq_map]
    simp only [List.map_cons, List.map_map, Nat.cast_zero, add_zero]
    congr 1
    refine List.map_congr_left (fun j _ => ?_)
    simp only [Function.comp_apply]
    congr 1
    push_cast
    ring

theorem cFor_length (bound : Int) (f : Int → α) (i : Int) :
    (cFor bound f i).length = (bound - i).toNat := by
  rw [cFor_eq_map]; simp

theorem cForM_all_some (bound : Int) (f : Int → Option α) (g : Int → α) (i : Int)
    (hf : ∀ j, i ≤ j → j < bound → f j = some (g j)) :
    cForM bound f i = some (cFor bound g i) := by
  generalize hn : (bound - i).toNat = n
  induction n generalizing i with
  | zero =>
    rw [cForM, cFor]
    have : ¬ i < bound := by omega
    simp [this]
  | succ n ih =>
    rw [cForM, cFor]
    have hi : i < bound := by omega
    have hn1 : (bound - (i + 1)).toNat = n := by omega
    rw [if_pos hi, if_pos hi, hf i le_rfl hi,
      ih (i + 1) (fun j h1 h2 => hf j (by omega) h2) hn1]

theorem cForM_isSome_iff (bound : Int) (f : Int → Option α) (i : Int) :
    (cForM bound f i).isSome ↔ ∀ j, i ≤ j → j < bound → (f j).isSome := by
  generalize hn : (bound - i).toNat = n
  induction n generalizing i with
  | zero =>
    rw [cForM]
    have : ¬ i < bound := by omega
    simp only [this, if_false, Option.isSome_some, true_iff]
    intro j h1 h2; omega
  | succ n ih =>
    rw [cForM]
    have hi : i < bound := by omega
    have hn1 : (bound - (i + 1)).toNat = n := by omega
    rw [if_pos hi]
    constructor
    · intro h j h1 h2
      rcases hfi : f i with _ | x
      · rw [hfi] at h; simp at h
      · rcases h1.lt_or_eq with h1 | h1
        · rw [hfi] at h
          rcases hrest : cForM bound f (i + 1) with _ | xs
          · rw [hrest] at h; simp at h
          · have := (ih (i + 1) hn1).mp (by rw [hrest]; simp)
            exact this j (by omega) h2
        · rw [← h1, hfi]; simp
    · intro h
      have hfi : (f i).isSome := h i le_rfl hi
      rcases hfi' : f i with _ | x
      · rw [hfi'] at hfi; simp at hfi
      have hrest : (cForM bound f (i + 1)).isSome :=
        (ih (i + 1) hn1).mpr (fun j h1 h2 => h j (by omega) h2)
      rcases hrest' : cForM bound f (i + 1) with _ | xs
      · rw [hrest'] at hrest; simp at hrest
      · simp

theorem cForM_eq_none_iff (bound : Int) (f : Int → Option α) (i : Int) :
    cForM bound f i = none ↔ ∃ j, i ≤ j ∧ j < bound ∧ f j = none := by
  rw [← Option.not_isSome_iff_eq_none, cForM_isSome_iff]
  push_neg
  constructor
  · rintro ⟨j, h1, h2, h3⟩
    exact ⟨j, h1, h2, Option.not_isSome_iff_eq_none.mp h3⟩
  · rintro ⟨j, h1, h2, h3⟩
    exact ⟨j, h1, h2, Option.not_isSome_iff_eq_none.mpr h3⟩

/-- A raw `char*` pointer as the bridge produces them: either the null
pointer or the pointer to `args[i].c_str()` for some index `i`. -/
inductive CPtr where
  | null : CPtr
  | toArg : Nat → CPtr
deriving DecidableEq, Repr

/-- Dereference a pointer against the owning `args` vector: the buffer of
`args[i].c_str()` when the pointer targets a live element, undefined
(`none`) for the null pointer or a dangling index. -/
def deref (args : List (List JByte)) : CPtr → Option (List JByte)
  | CPtr.null => none
  | CPtr.toArg i => (args[i]?).map cstrBuffer

/-- The embedded runtime: `node::Start` consumes the argument count and the
byte buffers the `argv` pointers reference, and yields an integer code. -/
structure NodeRuntime where
  Start : Int → List (List JByte) → Int

/-- Observable events of one bridge call. -/
inductive Event where
  | getElement : Int → JavaString → Event
  | getUTFChars : List JByte → Event
  | allocString : List JByte → Event
  | releaseUTFChars : List JByte → Event
  | logLine : String → Event
  | nodeStart : Int → List (List JByte) → Int → Event
  | freeString : List JByte → Event
deriving DecidableEq, Repr

/-- Body of the first source loop at index `i`: fetch the Java element,
convert it to raw chars via `conv` (JNI `GetStringUTFChars`, `none` = NULL),
and copy it into a `std::string`.  The source checks neither result, so a
`none` propagates as undefined behaviour. -/
def convStep (conv : JavaString → Option (List JByte)) (arguments : List JavaString)
    (i : Int) : Option (List JByte) :=
  match GetObjectArrayElement arguments i with
  | none => none
  | some string =>
    match conv string with
    | none => none
    | some rawString => some (stdString rawString)

/-- The first source loop with the Java array threaded as state: every JNI
call it performs is a read, so the returned array state is unchanged. -/
def convertLoopS (conv : JavaString → Option (List JByte)) (st : List JavaString)
    (bound : Int) (i : Int) : Option (List (List JByte)) × List JavaString :=
  if i < bound then
    match convStep conv st i with
    | none => (none, st)
    | some s =>
      match convertLoopS conv st bound (i + 1) with
      | (none, st2) => (none, st2)
      | (some xs, st2) => (some (s :: xs), st2)
  else (some [], st)
termination_by (bound - i).toNat
decreasing_by simp_wf; omega

/-- Body of the second source loop at index `i`:
`argv.push_back(const_cast<char*>(args[i].c_str()))` — read `args[i]` and
take the pointer to its buffer. -/
def argvStep (args : List (List JByte)) (i : Int) : Option CPtr :=
  match vecGet args i with
  | none => none
  | some _ => some (CPtr.toArg i.toNat)

/-- Dereference every pointer of the `argv` vector, as `node::Start` reads
its arguments; any invalid pointer is undefined behaviour. -/
def derefAll (args : List (List JByte)) : List CPtr → Option (List (List JByte))
  | [] => some []
  | p :: ps =>
    match deref args p with
    | none => none
    | some b =>
      match derefAll args ps with
      | none => none
      | some bs => some (b :: bs)

/-- The whole bridge body with a fallible string conversion `conv`: the
value `Java_com_landseek_amphibian_service_AmphibianNative_startNode`
returns, `none` marking a run that hits undefined behaviour. -/
def runBridge (conv : JavaString → Option (List JByte)) (node : NodeRuntime)
    (arguments : List JavaString) : Option Int :=
  let argc : Int := GetArrayLength arguments
  ((convertLoopS conv arguments argc 0).1).bind (fun args =>
    (cForM argc (argvStep args) 0).bind (fun argv =>
      (derefAll args argv).map (fun bufs => node.Start argc bufs)))

/-- The conversion used on the success path: `GetStringUTFChars` returns
the string's bytes. -/
def utfOk : JavaString → Option (List JByte) := fun s => some s

/-- The `args` vector after the first loop, on the success path. -/
def bridgeArgs (arguments : List JavaString) : List (List JByte) :=
  ((convertLoopS utfOk arguments (GetArrayLength arguments) 0).1).getD []

/-- The `argv` vector after the second loop, on the success path. -/
def bridgeArgv (arguments : List JavaString) : List CPtr :=
  (cForM (GetArrayLength arguments) (argvStep (bridgeArgs arguments)) 0).getD []

/-- The buffers `node::Start` reads through `argv.data()`. -/
def bridgeBufs (arguments : List JavaString) : List (List JByte) :=
  (derefAll (bridgeArgs arguments) (bridgeArgv arguments)).getD []

/-- The log line emitted before the invocation. -/
def startMsg : String := "Starting Embedded Node.js..."

/-- The log line emitted after the invocation returns. -/
def exitMsg (result : Int) : String := "Node.js exited with code: " ++ toString result

/-- Result of one bridge call in the instrumented model. -/
structure CallResult where
  ret : Int
  trace : List Event
  finalArray : List JavaString
deriving Repr

/-- Events of the first loop on the success path: per index, the element
read, the raw chars retrieval, the `std::string` copy allocation, and the
release of the raw chars. -/
def convertTrace (arguments : List JavaString) : List Event :=
  (cFor (GetArrayLength arguments)
    (fun i =>
      let s := (GetObjectArrayElement arguments i).getD []
      [Event.getElement i s, Event.getUTFChars s,
        Event.allocString (stdString s), Event.releaseUTFChars s]) 0).flatten

/-- The instrumented bridge call on the success path: the returned code,
the event trace of the call, and the state of the Java array after it. -/
def startNodeTraced (node : NodeRuntime) (arguments : List JavaString) : CallResult :=
  let argc : Int := GetArrayLength arguments
  let bufs : List (List JByte) := bridgeBufs arguments
  let result : Int := node.Start argc bufs
  { ret := result
    trace := convertTrace arguments
      ++ [Event.logLine startMsg, Event.nodeStart argc bufs result,
          Event.logLine (exitMsg result)]
      ++ (bridgeArgs arguments).map Event.freeString
    finalArray := (convertLoopS utfOk arguments argc 0).2 }

theorem vecGet_nonneg (v : List α) (i : Int) (h : 0 ≤ i) :
    vecGet v i = v[i.toNat]? := by
  rw [vecGet]
  by_cases h2 : i.toNat < v.length
  · rw [dif_pos ⟨h, h2⟩, List.getElem?_eq_getElem h2, List.get_eq_getElem]
  · rw [dif_neg (by omega), List.getElem?_eq_none (by omega)]

theorem vecGet_ofNat (v : List α) (j : Nat) :
    vecGet v (j : Int) = v[j]? := by
  rw [vecGet_nonneg v _ (by omega), Int.toNat_ofNat]

theorem convertLoopS_snd (conv : JavaString → Option (List JByte))
    (st : List JavaString) (bound : Int) (i : Int) :
    (convertLoopS conv st bound i).2 = st := by
  generalize hn : (bound - i).toNat = n
  induction n generalizing i with
  | zero =>
    rw [convertLoopS]
    have : ¬ i < bound := by omega
    simp [this]
  | succ n ih =>
    rw [convertLoopS]
    have hi : i < bound := by omega
    have hn1 : (bound - (i + 1)).toNat = n := by omega
    rw [if_pos hi]
    rcases convStep conv st i with _ | s
    · rfl
    · have h2 := ih (i + 1) hn1
      rcases h3 : convertLoopS conv st bound (i + 1) with ⟨o, st2⟩
      rw [h3] at h2
      rcases o with _ | xs <;> exact h2

theorem convertLoopS_fst (conv : JavaString → Option (List JByte))
    (st : List JavaString) (bound : Int) (i : Int) :
    (convertLoopS conv st bound i).1 = cForM bound (convStep conv st) i := by
  generalize hn : (bound - i).toNat = n
  induction n generalizing i with
  | zero =>
    rw [convertLoopS, cForM]
    have : ¬ i < bound := by omega
    simp [this]
  | succ n ih =>
    rw [convertLoopS, cForM]
    have hi : i < bound := by omega
    have hn1 : (bound - (i + 1)).toNat = n := by omega
    rw [if_pos hi, if_pos hi]
    rcases convStep conv st i with _ | s
    · rfl
    · have h2 := ih (i + 1) hn1
      rcases h3 : convertLoopS conv st bound (i + 1) with ⟨o, st2⟩
      rw [h3] at h2
      rcases o with _ | xs <;> simp only [← h2]

theorem cForM_some_length (bound : Int) (f : Int → Option α) (i : Int)
    (l : List α) (h : cForM bound f i = some l) :
    l.length = (bound - i).toNat := by
  generalize hn : (bound - i).toNat = n
  induction n generalizing i l with
  | zero =>
    rw [cForM] at h
    have : ¬ i < bound := by omega
    rw [if_neg this] at h
    simp only [Option.some.injEq] at h
    simp [← h]
  | succ n ih =>
    rw [cForM] at h
    have hi : i < bound := by omega
    have hn1 : (bound - (i + 1)).toNat = n := by omega
    rw [if_pos hi] at h
    rcases hfi : f i with _ | x
    · rw [hfi] at h; exact absurd h (by simp)
    · rw [hfi] at h
      rcases h2 : cForM bound f (i + 1) with _ | xs
      · rw [h2] at h; exact absurd h (by simp)
      · rw [h2] at h
        simp only [Option.some.injEq] at h
        have h3 := ih (i + 1) xs h2 hn1
        rw [← h]
        simp [h3]

theorem range_map_getD (v : List α) (d : α) (g : α → β) :
    (List.range v.length).map (fun j => g (v.getD j d)) = v.map g := by
  apply List.ext_getElem
  · simp
  · intro j h1 h2
    simp only [List.getElem_map, List.getElem_range]
    have h3 : j < v.length := by simpa using h2
    rw [List.getD_eq_getElem?_getD, List.getElem?_eq_getElem h3]
    rfl

theorem stdString_of_no_nul (s : List JByte) (h : ∀ b ∈ s, b ≠ 0) :
    stdString s = s := by
  induction s with
  | nil => rfl
  | cons b bs ih =>
    have hb : b ≠ 0 := h b (by simp)
    have h2 := ih (fun x hx => h x (by simp [hx]))
    rw [stdString] at h2 ⊢
    rw [List.takeWhile_cons]
    simp [hb, h2]
    exact fun x hx => h x (by simp [hx])

theorem convStep_utfOk (arguments : List JavaString) (j : Int)
    (h0 : 0 ≤ j) (h1 : j < GetArrayLength arguments) :
    convStep utfOk arguments j
      = some (stdString ((vecGet arguments j).getD [])) := by
  have h2 : j.toNat < arguments.length := by
    rw [GetArrayLength] at h1; omega
  rw [convStep, GetObjectArrayElement, vecGet_nonneg _ _ h0,
    List.getElem?_eq_getElem h2]
  rfl

theorem convStep_none_iff (conv : JavaString → Option (List JByte))
    (arguments : List JavaString) (j : Int)
    (h0 : 0 ≤ j) (h1 : j < GetArrayLength arguments) :
    convStep conv arguments j = none
      ↔ ∃ a, arguments[j.toNat]? = some a ∧ conv a = none := by
  have h2 : j.toNat < arguments.length := by
    rw [GetArrayLength] at h1; omega
  rw [convStep, GetObjectArrayElement, vecGet_nonneg _ _ h0,
    List.getElem?_eq_getElem h2]
  rcases hc : conv arguments[j.toNat] with _ | r
  · simp [List.getElem?_eq_getElem h2, hc]
  · simp [List.getElem?_eq_getElem h2, hc]

theorem bridgeArgs_some (arguments : List JavaString) :
    (convertLoopS utfOk arguments (GetArrayLength arguments) 0).1
      = some (arguments.map stdString) := by
  rw [convertLoopS_fst,
    cForM_all_some _ _ (fun j => stdString ((vecGet arguments j).getD [])) 0
      (fun j hj1 hj2 => convStep_utfOk arguments j hj1 hj2)]
  congr 1
  rw [cFor_eq_map]
  have he : (GetArrayLength arguments - 0).toNat = arguments.length := by
    rw [GetArrayLength]; omega
  rw [he, ← range_map_getD arguments [] stdString]
  refine List.map_congr_left (fun j hj => ?_)
  rw [zero_add, vecGet_ofNat, List.getD_eq_getElem?_getD]

theorem bridgeArgs_eq (arguments : List JavaString) :
    bridgeArgs arguments = arguments.map stdString := by
  rw [bridgeArgs, bridgeArgs_some]
  rfl

theorem bridgeArgs_someD (arguments : List JavaString) :
    (convertLoopS utfOk arguments (GetArrayLength arguments) 0).1
      = some (bridgeArgs arguments) := by
  rw [bridgeArgs, bridgeArgs_some]
  rfl

theorem argvStep_some (args : List (List JByte)) (j : Int)
    (h0 : 0 ≤ j) (h1 : j < (args.length : Int)) :
    argvStep args j = some (CPtr.toArg j.toNat) := by
  have h2 : j.toNat < args.length := by omega
  rw [argvStep, vecGet_nonneg _ _ h0, List.getElem?_eq_getElem h2]

theorem cForM_argv_eq (args : List (List JByte)) (argc : Int)
    (hlen : (args.length : Int) = argc) :
    cForM argc (argvStep args) 0
      = some ((List.range args.length).map CPtr.toArg) := by
  rw [cForM_all_some _ _ (fun j => CPtr.toArg j.toNat) 0
    (fun j hj1 hj2 => argvStep_some args j hj1 (by omega))]
  congr 1
  rw [cFor_eq_map]
  have he : (argc - 0).toNat = args.length := by omega
  rw [he]
  refine List.map_congr_left (fun j hj => ?_)
  congr 1
  omega

theorem bridgeArgv_eq (arguments : List JavaString) :
    bridgeArgv arguments = (List.range arguments.length).map CPtr.toArg := by
  have hlen : ((bridgeArgs arguments).length : Int) = GetArrayLength arguments := by
    rw [bridgeArgs_eq, List.length_map, GetArrayLength]
  rw [bridgeArgv, cForM_argv_eq _ _ hlen]
  rw [bridgeArgs_eq, List.length_map]
  rfl

theorem bridgeArgv_someD (arguments : List JavaString) :
    cForM (GetArrayLength arguments) (argvStep (bridgeArgs arguments)) 0
      = some (bridgeArgv arguments) := by
  have hlen : ((bridgeArgs arguments).length : Int) = GetArrayLength arguments := by
    rw [bridgeArgs_eq, List.length_map, GetArrayLength]
  rw [cForM_argv_eq _ _ hlen, bridgeArgv, cForM_argv_eq _ _ hlen]
  rfl

theorem deref_toArg (args : List (List JByte)) (i : Nat) (h : i < args.length) :
    deref args (CPtr.toArg i) = some (cstrBuffer (args.getD i [])) := by
  rw [deref, List.getElem?_eq_getElem h, List.getD_eq_getElem?_getD,
    List.getElem?_eq_getElem h]
  rfl

theorem derefAll_map_toArg (args : List (List JByte)) (idxs : List Nat)
    (h : ∀ i ∈ idxs, i < args.length) :
    derefAll args (idxs.map CPtr.toArg)
      = some (idxs.map (fun i => cstrBuffer (args.getD i []))) := by
  induction idxs with
  | nil => rfl
  | cons i is ih =>
    rw [List.map_cons, derefAll, deref_toArg args i (h i (by simp)),
      ih (fun x hx => h x (by simp [hx])), List.map_cons]

theorem derefAll_range (args : List (List JByte)) :
    derefAll args ((List.range args.length).map CPtr.toArg)
      = some (args.map cstrBuffer) := by
  rw [derefAll_map_toArg args _ (fun i hi => by simpa using hi), range_map_getD]

theorem bridgeBufs_eq (arguments : List JavaString) :
    bridgeBufs arguments = (bridgeArgs arguments).map cstrBuffer := by
  have h : arguments.length = (bridgeArgs arguments).length := by
    rw [bridgeArgs_eq, List.length_map]
  rw [bridgeBufs, bridgeArgv_eq, h, derefAll_range]
  rfl

theorem bridgeBufs_someD (arguments : List JavaString) :
    derefAll (bridgeArgs arguments) (bridgeArgv arguments)
      = some (bridgeBufs arguments) := by
  have h : arguments.length = (bridgeArgs arguments).length := by
    rw [bridgeArgs_eq, List.length_map]
  rw [bridgeArgv_eq, h, derefAll_range, bridgeBufs, bridgeArgv_eq, h, derefAll_range]
  rfl

theorem runBridge_utfOk (node : NodeRuntime) (arguments : List JavaString) :
    runBridge utfOk node arguments
      = some (node.Start (GetArrayLength arguments) (bridgeBufs arguments)) := by
  simp only [runBridge, bridgeArgs_someD, Option.some_bind, bridgeArgv_someD,
    bridgeBufs_someD, Option.map_some']

/-- Whether an event is a log line. -/
def Event.isLog : Event → Bool
  | Event.logLine _ => true
  | _ => false

/-- Whether an event is the runtime invocation. -/
def Event.isStart : Event → Bool
  | Event.nodeStart _ _ _ => true
  | _ => false

/-- Whether an event is externally observable in the sense of the spec:
a log line or the runtime invocation. -/
def Event.isObs (e : Event) : Bool := e.isLog || e.isStart

/-- The buffer allocated by an allocation event, if any. -/
def Event.alloc? : Event → Option (List JByte)
  | Event.allocString s => some s
  | _ => none

/-- The buffer destroyed by a deallocation event, if any. -/
def Event.free? : Event → Option (List JByte)
  | Event.freeString s => some s
  | _ => none

/-- The raw chars acquired from JNI by an event, if any. -/
def Event.acquired? : Event → Option (List JByte)
  | Event.getUTFChars s => some s
  | _ => none

/-- The raw chars released back to JNI by an event, if any. -/
def Event.released? : Event → Option (List JByte)
  | Event.releaseUTFChars s => some s
  | _ => none

theorem filter_flatten_eq (p : α → Bool) (L : List (List α)) :
    L.flatten.filter p = (L.map (fun l => l.filter p)).flatten := by
  induction L with
  | nil => rfl
  | cons l ls ih => simp [List.filter_append, ih]

theorem filterMap_flatten_eq (g : α → Option β) (L : List (List α)) :
    L.flatten.filterMap g = (L.map (fun l => l.filterMap g)).flatten := by
  induction L with
  | nil => rfl
  | cons l ls ih => simp [List.filterMap_append, ih]

theorem flatten_singletons (l : List γ) (f : γ → δ) :
    (l.map (fun x => [f x])).flatten = l.map f := by
  induction l with
  | nil => rfl
  | cons a as ih => simp [ih]

theorem flatten_nils (l : List γ) :
    (l.map (fun _ => ([] : List δ))).flatten = [] := by
  induction l with
  | nil => rfl
  | cons a as ih => simp [ih]

/-- The four events of iteration `j` of the conversion loop. -/
def convBlock (arguments : List JavaString) (j : Nat) : List Event :=
  let s := (arguments[j]?).getD []
  [Event.getElement (j : Int) s, Event.getUTFChars s,
    Event.allocString (stdString s), Event.releaseUTFChars s]

theorem convertTrace_eq (arguments : List JavaString) :
    convertTrace arguments
      = ((List.range arguments.length).map (convBlock arguments)).flatten := by
  rw [convertTrace, cFor_eq_map]
  have he : (GetArrayLength arguments - 0).toNat = arguments.length := by
    rw [GetArrayLength]; omega
  rw [he]
  congr 1
  refine List.map_congr_left (fun j hj => ?_)
  rw [zero_add, GetObjectArrayElement, vecGet_ofNat]
  rfl

theorem flatten_map_filter_nil (p : α → Bool) (f : γ → List α) (l : List γ)
    (hf : ∀ x, (f x).filter p = []) :
    ((l.map f).flatten).filter p = [] := by
  induction l with
  | nil => rfl
  | cons a as ih => simp [List.filter_append, hf, ih]

theorem flatten_map_filterMap (g : α → Option β) (f : γ → List α) (h : γ → β)
    (l : List γ) (hf : ∀ x, (f x).filterMap g = [h x]) :
    ((l.map f).flatten).filterMap g = l.map h := by
  induction l with
  | nil => rfl
  | cons a as ih => simp [List.filterMap_append, hf, ih]

theorem flatten_map_filterMap_nil (g : α → Option β) (f : γ → List α)
    (l : List γ) (hf : ∀ x, (f x).filterMap g = []) :
    ((l.map f).flatten).filterMap g = [] := by
  induction l with
  | nil => rfl
  | cons a as ih => simp [List.filterMap_append, hf, ih]

theorem range_map_getElemD (v : List α) (d : α) (g : α → β) :
    (List.range v.length).map (fun j => g ((v[j]?).getD d)) = v.map g := by
  rw [← range_map_getD v d g]
  refine List.map_congr_left (fun j hj => ?_)
  rw [List.getD_eq_getElem?_getD]

theorem range_map_getElemD_id (v : List α) (d : α) :
    (List.range v.length).map (fun j => (v[j]?).getD d) = v := by
  have h := range_map_getElemD v d id
  simpa using h

theorem convertTrace_filter_obs (arguments : List JavaString) :
    (convertTrace arguments).filter (fun e => Event.isObs e) = [] := by
  rw [convertTrace_eq]
  exact flatten_map_filter_nil _ _ _ (fun j => rfl)

theorem convertTrace_allocs (arguments : List JavaString) :
    (convertTrace arguments).filterMap Event.alloc? = arguments.map stdString := by
  rw [convertTrace_eq,
    flatten_map_filterMap Event.alloc? (convBlock arguments)
      (fun j : Nat => stdString ((arguments[j]?).getD []))
      (List.range arguments.length) (fun j => rfl)]
  rw [range_map_getElemD]

theorem convertTrace_frees (arguments : List JavaString) :
    (convertTrace arguments).filterMap Event.free? = [] := by
  rw [convertTrace_eq]
  exact flatten_map_filterMap_nil _ _ _ (fun j => rfl)

theorem convertTrace_acquired (arguments : List JavaString) :
    (convertTrace arguments).filterMap Event.acquired? = arguments := by
  rw [convertTrace_eq,
    flatten_map_filterMap Event.acquired? (convBlock arguments)
      (fun j : Nat => (arguments[j]?).getD [])
      (List.range arguments.length) (fun j => rfl)]
  rw [range_map_getElemD_id]

theorem convertTrace_released (arguments : List JavaString) :
    (convertTrace arguments).filterMap Event.released? = arguments := by
  rw [convertTrace_eq,
    flatten_map_filterMap Event.released? (convBlock arguments)
      (fun j : Nat => (arguments[j]?).getD [])
      (List.range arguments.length) (fun j => rfl)]
  rw [range_map_getElemD_id]

theorem convertTrace_filter_log (arguments : List JavaString) :
    (convertTrace arguments).filter (fun e => Event.isLog e) = [] := by
  rw [convertTrace_eq]
  exact flatten_map_filter_nil _ _ _ (fun j => rfl)

theorem convertTrace_filter_start (arguments : List JavaString) :
    (convertTrace arguments).filter (fun e => Event.isStart e) = [] := by
  rw [convertTrace_eq]
  exact flatten_map_filter_nil _ _ _ (fun j => rfl)

theorem freeTrace_filter (args : List (List JByte)) (p : Event → Bool)
    (hp : ∀ s, p (Event.freeString s) = false) :
    (args.map Event.freeString).filter p = [] := by
  induction args with
  | nil => rfl
  | cons a as ih => simp [hp, ih]

theorem freeTrace_filterMap_none (args : List (List JByte))
    (g : Event → Option (List JByte))
    (hg : ∀ s, g (Event.freeString s) = none) :
    (args.map Event.freeString).filterMap g = [] := by
  induction args with
  | nil => rfl
  | cons a as ih => simp [hg, ih]

theorem freeTrace_frees (args : List (List JByte)) :
    (args.map Event.freeString).filterMap Event.free? = args := by
  induction args with
  | nil => rfl
  | cons a as ih => simp [Event.free?, ih]

theorem lt_of_getElem?_some (l : List α) (i : Nat) (a : α) (h : l[i]? = some a) :
    i < l.length := by
  by_contra hcon
  rw [List.getElem?_eq_none (by omega)] at h
  exact absurd h (by simp)

theorem bridgeArgv_getElem (arguments : List JavaString) (i : Nat)
    (hi : i < arguments.length) :
    (bridgeArgv arguments)[i]? = some (CPtr.toArg i) := by
  rw [bridgeArgv_eq]
  simp [List.getElem?_range, hi]

theorem deref_bridgeArgs (arguments : List JavaString) (i : Nat) (a : JavaString)
    (ha : arguments[i]? = some a) :
    deref (bridgeArgs arguments) (CPtr.toArg i) = some (cstrBuffer (stdString a)) := by
  rw [bridgeArgs_eq, deref]
  simp [ha]

/-- Claim C1: on every bridge call, `node::Start` is invoked exactly once
(the trace holds exactly one invocation event, placed synchronously inside
the call), and the integer it returns is returned to the caller exactly,
unmodified — the bridge result is the pass-through of the `Start` result,
whatever its value, in the instrumented model and in the fallible model
alike. -/
theorem start_passthrough (node : NodeRuntime) (arguments : List JavaString) :
    (startNodeTraced node arguments).ret
        = node.Start (GetArrayLength arguments) (bridgeBufs arguments)
      ∧ (startNodeTraced node arguments).trace.filter (fun e => Event.isStart e)
          = [Event.nodeStart (GetArrayLength arguments) (bridgeBufs arguments)
              ((startNodeTraced node arguments).ret)]
      ∧ runBridge utfOk node arguments = some ((startNodeTraced node arguments).ret) := by
  refine ⟨rfl, ?_, ?_⟩
  · simp only [startNodeTraced]
    rw [List.filter_append, List.filter_append, convertTrace_filter_start,
      freeTrace_filter _ _ (fun s => rfl)]
    rfl
  · rw [runBridge_utfOk]
    rfl

/-- Claim C2: for an input array of null-free strings (as JNI UTF chars
conversion produces), the marshaller yields a pointer array with exactly one
entry per input, and the `i`-th pointer dereferences to a null-terminated
buffer holding exactly the bytes of the `i`-th input, in input order. -/
theorem marshal_copies (arguments : List JavaString) (i : Nat) (a : JavaString)
    (hz : ∀ s ∈ arguments, ∀ b ∈ s, b ≠ 0)
    (ha : arguments[i]? = some a) :
    (bridgeArgv arguments).length = arguments.length
      ∧ (bridgeArgv arguments)[i]? = some (CPtr.toArg i)
      ∧ deref (bridgeArgs arguments) (CPtr.toArg i) = some (a ++ [0]) := by
  have hi : i < arguments.length := lt_of_getElem?_some arguments i a ha
  have hmem : a ∈ arguments := by
    have h2 := List.getElem?_eq_some.mp ha
    rcases h2 with ⟨hlt, hget⟩
    rw [← hget]
    exact List.getElem_mem hlt
  refine ⟨?_, bridgeArgv_getElem arguments i hi, ?_⟩
  · rw [bridgeArgv_eq]
    simp
  · rw [deref_bridgeArgs arguments i a ha, stdString_of_no_nul a (hz a hmem)]
    rfl

/-- Witness for claim C2 at the concrete input of two null-free strings. -/
theorem marshal_copies_w :
    (bridgeArgv [[45, 45, 102], [118]]).length
        = ([[45, 45, 102], [118]] : List JavaString).length
      ∧ (bridgeArgv [[45, 45, 102], [118]])[0]? = some (CPtr.toArg 0)
      ∧ deref (bridgeArgs [[45, 45, 102], [118]]) (CPtr.toArg 0)
          = some ([45, 45, 102] ++ [0]) :=
  marshal_copies [[45, 45, 102], [118]] 0 [45, 45, 102] (by decide) rfl

/-- Claim C3: the empty input array is legal — marshalling yields an empty
pointer sequence, the conversion loop performs no element retrieval (its
event trace is empty), and the invocation still proceeds: `node::Start` is
called with `argc = 0` and its result is passed through unchanged, in the
fallible model for every conversion oracle and in the instrumented model. -/
theorem empty_input_legal (conv : JavaString → Option (List JByte)) (node : NodeRuntime) :
    runBridge conv node [] = some (node.Start 0 [])
      ∧ bridgeArgv ([] : List JavaString) = []
      ∧ convertTrace ([] : List JavaString) = []
      ∧ (startNodeTraced node []).ret = node.Start 0 [] := by
  refine ⟨?_, ?_, ?_, ?_⟩
  · simp [runBridge, GetArrayLength, convertLoopS, cForM, derefAll]
  · rw [bridgeArgv_eq]
    simp
  · rw [convertTrace_eq]
    simp
  · have h2 : bridgeBufs ([] : List JavaString) = [] := by
      rw [bridgeBufs_eq, bridgeArgs_eq]
      rfl
    simp only [startNodeTraced, h2]
    rfl

/-- Claim C4: the bridge has no error path for a failed element retrieval:
its run is undefined (`none`) exactly when some input element's conversion
fails, and whenever it does return a value, that value is a `node::Start`
result — never a distinguished error code produced by the bridge itself.
Marshalling is thus well-defined precisely under the precondition that
every retrieval succeeds. -/
theorem conversion_failure_undefined (conv : JavaString → Option (List JByte))
    (node : NodeRuntime) (arguments : List JavaString) :
    (runBridge conv node arguments = none
        ↔ ∃ (i : Nat) (a : JavaString), arguments[i]? = some a ∧ conv a = none)
      ∧ ∀ r : Int, runBridge conv node arguments = some r →
          ∃ bufs, r = node.Start (GetArrayLength arguments) bufs := by
  rcases hC : (convertLoopS conv arguments (GetArrayLength arguments) 0).1 with _ | args
  · have hR : ∃ (i : Nat) (a : JavaString), arguments[i]? = some a ∧ conv a = none := by
      rw [convertLoopS_fst] at hC
      rcases (cForM_eq_none_iff _ _ _).mp hC with ⟨j, hj0, hjb, hjn⟩
      rcases (convStep_none_iff conv arguments j hj0 hjb).mp hjn with ⟨a, ha, hcv⟩
      exact ⟨j.toNat, a, ha, hcv⟩
    constructor
    · simp only [runBridge, hC, Option.none_bind]
      exact iff_of_true trivial hR
    · intro r hr
      simp only [runBridge, hC, Option.none_bind] at hr
      exact absurd hr (by simp)
  · have hlen : ((args.length : Nat) : Int) = GetArrayLength arguments := by
      rw [convertLoopS_fst] at hC
      have h2 := cForM_some_length _ _ _ _ hC
      rw [GetArrayLength] at h2 ⊢
      omega
    have h2 := cForM_argv_eq args (GetArrayLength arguments) hlen
    have h3 := derefAll_range args
    have hsome : runBridge conv node arguments
        = some (node.Start (GetArrayLength arguments) (args.map cstrBuffer)) := by
      simp only [runBridge, hC, Option.some_bind, h2, h3, Option.map_some']
    constructor
    · rw [hsome]
      refine iff_of_false (by simp) ?_
      rintro ⟨i, a, ha, hcv⟩
      have hi : i < arguments.length := lt_of_getElem?_some arguments i a ha
      have htn : ((i : Int)).toNat = i := by omega
      have hstep : convStep conv arguments (i : Int) = none := by
        refine (convStep_none_iff conv arguments (i : Int) (by omega)
          (by rw [GetArrayLength]; omega)).mpr ?_
        rw [htn]
        exact ⟨a, ha, hcv⟩
      have hnone : cForM (GetArrayLength arguments) (convStep conv arguments) 0 = none :=
        (cForM_eq_none_iff _ _ _).mpr
          ⟨(i : Int), by omega, by rw [GetArrayLength]; omega, hstep⟩
      rw [convertLoopS_fst, hnone] at hC
      exact absurd hC (by simp)
    · intro r hr
      rw [hsome] at hr
      simp only [Option.some.injEq] at hr
      exact ⟨args.map cstrBuffer, hr.symm⟩

/-- Witness for claim C4: a failing conversion on a one-element array makes
the bridge run undefined. -/
theorem conversion_failure_undefined_w :
    runBridge (fun _ => none) ⟨fun _ _ => 0⟩ [[1]] = none :=
  (conversion_failure_undefined (fun _ => none) ⟨fun _ _ => 0⟩ [[1]]).1.mpr
    ⟨0, [1], rfl, rfl⟩

/-- Claim C5: a bridge call's observable events are exactly one "starting"
log line, then the `node::Start` invocation, then one log line reporting
the exact returned code; in particular a `node::Start` result of 0 makes
the bridge return 0 and log "exited with code: 0". -/
theorem log_lines_bracket (node : NodeRuntime) (arguments : List JavaString) :
    (startNodeTraced node arguments).trace.filter (fun e => Event.isObs e)
        = [Event.logLine startMsg,
            Event.nodeStart (GetArrayLength arguments) (bridgeBufs arguments)
              ((startNodeTraced node arguments).ret),
            Event.logLine (exitMsg ((startNodeTraced node arguments).ret))]
      ∧ exitMsg 0 = "Node.js exited with code: 0"
      ∧ (node.Start (GetArrayLength arguments) (bridgeBufs arguments) = 0 →
          (startNodeTraced node arguments).ret = 0
            ∧ exitMsg ((startNodeTraced node arguments).ret)
                = "Node.js exited with code: 0") := by
  refine ⟨?_, rfl, ?_⟩
  · simp only [startNodeTraced]
    rw [List.filter_append, List.filter_append, convertTrace_filter_obs,
      freeTrace_filter _ _ (fun s => rfl)]
    rfl
  · intro h
    have hr : (startNodeTraced node arguments).ret = 0 := h
    exact ⟨hr, by rw [hr]; rfl⟩

/-- Witness for claim C5: a runtime that returns 0 makes the bridge return 0
with the exit log line reporting code 0. -/
theorem log_lines_bracket_w :
    (startNodeTraced ⟨fun _ _ => 0⟩ []).ret = 0
      ∧ exitMsg ((startNodeTraced ⟨fun _ _ => 0⟩ []).ret)
          = "Node.js exited with code: 0" :=
  (log_lines_bracket ⟨fun _ _ => 0⟩ []).2.2 rfl

/-- Claim C6: the bridge performs no validation of the array length it reads
into `argc`: a C loop bounded by any integer `argc` executes exactly
`max(argc, 0)` iterations (so does its fallible variant whenever it
completes), and the invocation event always carries the unvalidated
`GetArrayLength` value as its `argc`. -/
theorem argc_unchecked :
    (∀ (argc : Int) (f : Int → List JByte),
        (cFor argc f 0).length = (max argc 0).toNat)
      ∧ (∀ (argc : Int) (f : Int → Option CPtr) (l : List CPtr),
          cForM argc f 0 = some l → l.length = (max argc 0).toNat)
      ∧ ∀ (node : NodeRuntime) (arguments : List JavaString),
          Event.nodeStart (GetArrayLength arguments) (bridgeBufs arguments)
              ((startNodeTraced node arguments).ret)
            ∈ (startNodeTraced node arguments).trace := by
  refine ⟨?_, ?_, ?_⟩
  · intro argc f
    rw [cFor_length]
    omega
  · intro argc f l h
    have h2 := cForM_some_length argc f 0 l h
    omega
  · intro node arguments
    simp [startNodeTraced]

/-- Witness for claim C6: a negative bound runs the loop zero times. -/
theorem argc_unchecked_w :
    (cFor (-3 : Int) (fun _ => ([] : List JByte)) 0).length
      = (max (-3 : Int) 0).toNat :=
  argc_unchecked.1 (-3) (fun _ => ([] : List JByte))

/-- Claim C7: apart from the single invocation and the two log lines, a
bridge call has no observable effects: the Java array is unchanged at call
exit, every `std::string` buffer allocated during the call is destroyed at
call exit, every JNI raw chars acquisition is matched by a release, and the
trace holds exactly one invocation event and exactly two log lines. -/
theorem frame_no_side_effects (node : NodeRuntime) (arguments : List JavaString) :
    (startNodeTraced node arguments).finalArray = arguments
      ∧ (startNodeTraced node arguments).trace.filterMap Event.alloc?
          = (startNodeTraced node arguments).trace.filterMap Event.free?
      ∧ (startNodeTraced node arguments).trace.filterMap Event.acquired?
          = (startNodeTraced node arguments).trace.filterMap Event.released?
      ∧ ((startNodeTraced node arguments).trace.filter
          (fun e => Event.isStart e)).length = 1
      ∧ ((startNodeTraced node arguments).trace.filter
          (fun e => Event.isLog e)).length = 2 := by
  refine ⟨?_, ?_, ?_, ?_, ?_⟩
  · simp only [startNodeTraced]
    exact convertLoopS_snd utfOk arguments (GetArrayLength arguments) 0
  · simp only [startNodeTraced]
    rw [List.filterMap_append, List.filterMap_append, List.filterMap_append,
      List.filterMap_append, convertTrace_allocs, convertTrace_frees,
      freeTrace_filterMap_none _ Event.alloc? (fun s => rfl), freeTrace_frees]
    simp [List.filterMap_cons, Event.alloc?, Event.free?, bridgeArgs_eq]
  · simp only [startNodeTraced]
    rw [List.filterMap_append, List.filterMap_append, List.filterMap_append,
      List.filterMap_append, convertTrace_acquired, convertTrace_released,
      freeTrace_filterMap_none _ Event.acquired? (fun s => rfl),
      freeTrace_filterMap_none _ Event.released? (fun s => rfl)]
    simp [List.filterMap_cons, Event.acquired?, Event.released?]
  · simp only [startNodeTraced]
    rw [List.filter_append, List.filter_append, convertTrace_filter_start,
      freeTrace_filter _ _ (fun s => rfl)]
    rfl
  · simp only [startNodeTraced]
    rw [List.filter_append, List.filter_append, convertTrace_filter_log,
      freeTrace_filter _ _ (fun s => rfl)]
    rfl

/-- Claim C8: at the moment `node::Start` is invoked, every `argv` entry is
the pointer to the buffer of the corresponding element of the owning `args`
vector and dereferences validly to it — `argv[i] = &args[i].c_str()` for
every in-range `i`, and the buffers passed to `node::Start` are exactly the
`args` buffers read through those pointers. -/
theorem argv_points_into_args (arguments : List JavaString) (i : Nat) (a : JavaString)
    (ha : arguments[i]? = some a) :
    (bridgeArgv arguments)[i]? = some (CPtr.toArg i)
      ∧ deref (bridgeArgs arguments) (CPtr.toArg i)
          = some (cstrBuffer (stdString a))
      ∧ bridgeBufs arguments = (bridgeArgs arguments).map cstrBuffer := by
  have hi : i < arguments.length := lt_of_getElem?_some arguments i a ha
  exact ⟨bridgeArgv_getElem arguments i hi, deref_bridgeArgs arguments i a ha,
    bridgeBufs_eq arguments⟩

/-- Witness for claim C8 at a concrete one-element array. -/
theorem argv_points_into_args_w :
    (bridgeArgv [[7]])[0]? = some (CPtr.toArg 0)
      ∧ deref (bridgeArgs [[7]]) (CPtr.toArg 0) = some (cstrBuffer (stdString [7]))
      ∧ bridgeBufs [[7]] = (bridgeArgs [[7]]).map cstrBuffer :=
  argv_points_into_args [[7]] 0 [7] rfl

/-- Claim C9: the pointer array passed to `node::Start` has exactly `argc`
entries and no trailing null sentinel: no entry is the null pointer, the
position `argv[argc]` does not exist, and for the empty input the bridge
passes an empty pointer and buffer sequence. -/
theorem argv_exact_no_sentinel (arguments : List JavaString) :
    (bridgeArgv arguments).length = arguments.length
      ∧ CPtr.null ∉ bridgeArgv arguments
      ∧ (bridgeArgv arguments)[arguments.length]? = none
      ∧ bridgeArgv ([] : List JavaString) = []
      ∧ bridgeBufs ([] : List JavaString) = [] := by
  refine ⟨?_, ?_, ?_, ?_, ?_⟩
  · rw [bridgeArgv_eq]
    simp
  · rw [bridgeArgv_eq]
    simp
  · rw [bridgeArgv_eq]
    apply List.getElem?_eq_none
    simp
  · rw [bridgeArgv_eq]
    simp
  · rw [bridgeBufs_eq, bridgeArgs_eq]
    rfl

/-- Claim C10: the bridge is deterministic and stateless across calls — two
calls on equal argument arrays, against runtimes whose `Start` agrees on
the marshalled input, return equal integers; the result depends only on the
arguments and on the `Start` behaviour at them. -/
theorem deterministic_bridge (node1 node2 : NodeRuntime)
    (args1 args2 : List JavaString) (h : args1 = args2)
    (hS : node1.Start (GetArrayLength args1) (bridgeBufs args1)
        = node2.Start (GetArrayLength args1) (bridgeBufs args1)) :
    (startNodeTraced node1 args1).ret = (startNodeTraced node2 args2).ret := by
  subst h
  simpa only [startNodeTraced] using hS

/-- Witness for claim C10: two syntactically different runtimes that agree
on the marshalled empty input give the same bridge result. -/
theorem deterministic_bridge_w :
    (startNodeTraced ⟨fun _ _ => 7⟩ []).ret
      = (startNodeTraced ⟨fun a _ => 7 + 0 * a⟩ []).ret :=
  deterministic_bridge ⟨fun _ _ => 7⟩ ⟨fun a _ => 7 + 0 * a⟩ [] [] rfl (by ring)

end Amphibian
